import Mathlib

/-!
Verification of the Supabase schema analyzer (`database/schema_analyzer.py`).

The script reads a JSON array of column-level records, groups them into a
schema → table → table-info map, and renders three outputs: a markdown
summary, a Mermaid relationship diagram, and a JSON statistics file.
This development embeds the aggregation step and the three renderers as
executable Lean functions and proves the documented properties about them.
-/

namespace SchemaAnalyzer

/-- A fully-parsed input record: one row of the JSON array, with all seven
fields present.  `references_table` may be JSON `null` (`none`). -/
structure ColumnRecord where
  schema : String
  table : String
  column : String
  data_type : String
  nullable : String
  constraint_type : String
  references_table : Option String
deriving Repr, DecidableEq

/-- A raw input record before field access: each of the seven keys may be
absent from the JSON object.  For `references_table` the value itself may
additionally be `null`. -/
structure RawRecord where
  schema : Option String
  table : Option String
  column : Option String
  data_type : Option String
  nullable : Option String
  constraint_type : Option String
  references_table : Option (Option String)
deriving Repr, DecidableEq

/-- Errors of the aggregation step: a record missing a required field. -/
inductive AggError where
  | MalformedInput
deriving Repr, DecidableEq

/-- Field access over a raw record (lines 57–63 of the script): a missing
key raises, modelled as `MalformedInput`. -/
def parseRecord (r : RawRecord) : Except AggError ColumnRecord :=
  match r.schema, r.table, r.column, r.data_type, r.nullable,
        r.constraint_type, r.references_table with
  | some s, some t, some c, some dt, some nu, some ct, some rt =>
    Except.ok ⟨s, t, c, dt, nu, ct, rt⟩
  | _, _, _, _, _, _, _ => Except.error AggError.MalformedInput

/-- Whether a raw record lacks one of the seven required fields. -/
def missingField (r : RawRecord) : Bool :=
  r.schema.isNone || r.table.isNone || r.column.isNone || r.data_type.isNone ||
  r.nullable.isNone || r.constraint_type.isNone || r.references_table.isNone

/-- A column descriptor as stored in `columns` (lines 66–70). -/
structure Column where
  name : String
  type : String
  nullable : Bool
deriving Repr, DecidableEq

/-- A foreign-key entry as stored in `foreign_keys` (lines 76–79). -/
structure ForeignKey where
  column : String
  references : Option String
deriving Repr, DecidableEq

/-- The per-table accumulator (the defaultdict payload, lines 49–54). -/
structure TableInfo where
  columns : List Column
  primary_key : Option String
  foreign_keys : List ForeignKey
  unique_constraints : List String
deriving Repr, DecidableEq

/-- The defaultdict's initial table value. -/
def TableInfo.empty : TableInfo := ⟨[], none, [], []⟩

/-- The nested `organized_schema` dict, flattened to an insertion-ordered
association list keyed by (schema, table). -/
abbrev SchemaMap := List ((String × String) × TableInfo)

/-- Keys of the map, in insertion order. -/
def mapKeys (m : SchemaMap) : List (String × String) := m.map (fun e => e.1)

/-- Dict lookup: value of the first entry with the given key. -/
def lookupTable (m : SchemaMap) (k : String × String) : Option TableInfo :=
  (m.find? (fun e => e.1 == k)).map (fun e => e.2)

/-- defaultdict access followed by mutation: replace the value at `k`
in place, or append a fresh entry seeded with `TableInfo.empty`. -/
def updateTable (m : SchemaMap) (k : String × String)
    (f : TableInfo → TableInfo) : SchemaMap :=
  match m with
  | [] => [(k, f TableInfo.empty)]
  | e :: rest =>
    if e.1 = k then (k, f e.2) :: rest else e :: updateTable rest k f

/-- Dict access with the defaultdict default. -/
def getTable (m : SchemaMap) (s t : String) : TableInfo :=
  (lookupTable m (s, t)).getD TableInfo.empty

/-- The column descriptor derived from a record (lines 66–70): the
nullable flag is the comparison with the literal string NULL. -/
def columnOf (r : ColumnRecord) : Column :=
  ⟨r.column, r.data_type, r.nullable == "NULL"⟩

/-- The constraint registration step (lines 73–81). -/
def applyConstraint (r : ColumnRecord) (t : TableInfo) : TableInfo :=
  if r.constraint_type == "PRIMARY KEY" then
    { t with primary_key := some r.column }
  else if r.constraint_type == "FOREIGN KEY" then
    { t with foreign_keys := t.foreign_keys ++ [⟨r.column, r.references_table⟩] }
  else if r.constraint_type == "UNIQUE" then
    { t with unique_constraints := t.unique_constraints ++ [r.column] }
  else t

/-- Processing one record of the loop body (lines 56–81): append the
column descriptor, then register the constraint. -/
def addRecord (m : SchemaMap) (r : ColumnRecord) : SchemaMap :=
  updateTable m (r.schema, r.table)
    (fun t => applyConstraint r { t with columns := t.columns ++ [columnOf r] })

/-- The whole aggregation loop over the input sequence. -/
def analyze (records : List ColumnRecord) : SchemaMap :=
  records.foldl addRecord []

/-- The aggregation step over raw records: field access of each record in
order, stopping at the first malformed one, then grouping. -/
def parseAll : List RawRecord → Except AggError (List ColumnRecord)
  | [] => Except.ok []
  | r :: rs =>
    match parseRecord r with
    | Except.error e => Except.error e
    | Except.ok c =>
      match parseAll rs with
      | Except.error e => Except.error e
      | Except.ok cs => Except.ok (c :: cs)

/-- Aggregation from raw input: parse every record, then group. -/
def analyzeRaw (rs : List RawRecord) : Except AggError SchemaMap :=
  match parseAll rs with
  | Except.error e => Except.error e
  | Except.ok recs => Except.ok (analyze recs)

/-- Python dict key order with duplicates dropped: keep the first
occurrence of each element. -/
def dedupKeepFirst : List String → List String
  | [] => []
  | x :: xs => x :: (dedupKeepFirst xs).filter (fun y => !(y == x))

/-- Code-point comparison of two character lists, as Python compares
strings. -/
def charListLe : List Char → List Char → Bool
  | [], _ => true
  | _ :: _, [] => false
  | a :: as, b :: bs =>
    if a.val < b.val then true
    else if b.val < a.val then false
    else charListLe as bs

/-- Python string order. -/
def strLe (a b : String) : Bool := charListLe a.toList b.toList

/-- Python `sorted` on a list of strings. -/
def sortStr (l : List String) : List String :=
  List.insertionSort (fun a b => strLe a b = true) l

/-- The outer dict's keys: schema names in insertion order. -/
def schemaNames (m : SchemaMap) : List String :=
  dedupKeepFirst (m.map (fun e => e.1.1))

/-- One schema's inner dict keys: its table names in insertion order. -/
def tableNames (m : SchemaMap) (s : String) : List String :=
  (m.filter (fun e => e.1.1 == s)).map (fun e => e.1.2)

/-- Python string interpolation of a value that may be `None`. -/
def pyStr : Option String → String
  | none => "None"
  | some s => s

/-- Python truthiness of a string-or-None value. -/
def truthy : Option String → Bool
  | none => false
  | some s => !(s == "")

/-- Python `str.split` on the single character dot. -/
def splitDotAux : List Char → List Char → List String
  | [], acc => [String.mk acc.reverse]
  | c :: rest, acc =>
    if c = '.' then String.mk acc.reverse :: splitDotAux rest []
    else splitDotAux rest (c :: acc)

/-- `ref.split(".")` of the script (line 148). -/
def splitDot (s : String) : List String := splitDotAux s.toList []

/-- The constraint labels of one column row (lines 105–113):
PRIMARY KEY, then UNIQUE, then the first matching foreign key. -/
def colConstraints (td : TableInfo) (c : Column) : List String :=
  (if td.primary_key == some c.name then ["PRIMARY KEY"] else []) ++
  (if td.unique_constraints.contains c.name then ["UNIQUE"] else []) ++
  (match td.foreign_keys.find? (fun fk => fk.column == c.name) with
   | some fk => ["FK → " ++ pyStr fk.references]
   | none => [])

/-- One markdown table row (line 115). -/
def mdRow (td : TableInfo) (c : Column) : String :=
  "| " ++ c.name ++ " | " ++ c.type ++ " | " ++
  (if c.nullable then "Sí" else "No") ++ " | " ++
  String.intercalate ", " (colConstraints td c) ++ " |\n"

/-- One markdown table section (lines 97–117). -/
def mdTable (t : String) (td : TableInfo) : String :=
  "### Tabla: " ++ t ++ "\n\n#### Columnas\n\n" ++
  "| Nombre | Tipo | Nullable | Restricciones |\n" ++
  "|--------|------|----------|---------------|\n" ++
  String.join (td.columns.map (fun c => mdRow td c)) ++ "\n"

/-- One markdown schema section (lines 90–119). -/
def mdSchema (m : SchemaMap) (s : String) : String :=
  let tables := sortStr (tableNames m s)
  "## Esquema: " ++ s ++ "\n\nContiene " ++ toString tables.length ++
  " tabla(s):\n\n" ++
  String.join (tables.map (fun t => mdTable t (getTable m s t))) ++ "\n"

/-- The timestamp-free part of the markdown summary. -/
def summaryBody (m : SchemaMap) : String :=
  String.join ((sortStr (schemaNames m)).map (fun s => mdSchema m s))

/-- The full markdown summary file content (lines 86–119). -/
def runSummary (m : SchemaMap) (ts : String) : String :=
  "# Resumen del Esquema de Base de Datos\n\n" ++
  ("*Generado el: " ++ ts ++ "*\n\n") ++
  String.join ((sortStr (schemaNames m)).map (fun s => mdSchema m s))

/-- One Mermaid entity block (lines 137–141). -/
def entityBlock (m : SchemaMap) (s t : String) : String :=
  let td := getTable m s t
  "    " ++ s ++ "_" ++ t ++ " \x7b\n" ++
  String.join (td.columns.map (fun c =>
    "        " ++ c.type ++ " " ++ c.name ++ " " ++
    (if td.primary_key == some c.name then "PK" else "") ++ "\n")) ++
  "    \x7d\n"

/-- One relationship line, when the reference is truthy and splits into
exactly two dot-separated parts (lines 146–151). -/
def fkLine (s t : String) (fk : ForeignKey) : Option String :=
  if truthy fk.references then
    match splitDot (pyStr fk.references) with
    | [refSchema, refTable] =>
      some ("    " ++ s ++ "_" ++ t ++ " ||--o\x7b " ++ refSchema ++ "_" ++
            refTable ++ " : \"" ++ fk.column ++ "\"\n")
    | _ => none
  else none

/-- Whether a reference value splits into exactly two dot-separated
parts (so that the script emits a relationship line for it). -/
def refValid (r : Option String) : Bool :=
  match r with
  | none => false
  | some s => (splitDot s).length == 2

/-- The relationship lines emitted for one table's foreign keys. -/
def tableFkLines (m : SchemaMap) (s t : String) : List String :=
  (getTable m s t).foreign_keys.filterMap (fkLine s t)

/-- All relationship lines, in emission order (lines 144–151). -/
def relLines (m : SchemaMap) : List String :=
  ((sortStr (schemaNames m)).map (fun s =>
    ((sortStr (tableNames m s)).map (fun t => tableFkLines m s t)).flatten)).flatten

/-- The timestamp-free part of the relationship file. -/
def relationsBody (m : SchemaMap) : String :=
  "```mermaid\nerDiagram\n" ++
  String.join ((sortStr (schemaNames m)).map (fun s =>
    String.join ((sortStr (tableNames m s)).map (fun t => entityBlock m s t)))) ++
  String.join (relLines m) ++
  "```\n"

/-- The full relationship file content (lines 130–153). -/
def runRelations (m : SchemaMap) (ts : String) : String :=
  "# Relaciones entre Tablas\n\n" ++
  ("*Generado el: " ++ ts ++ "*\n\n") ++
  ("```mermaid\nerDiagram\n" ++
   String.join ((sortStr (schemaNames m)).map (fun s =>
     String.join ((sortStr (tableNames m s)).map (fun t => entityBlock m s t)))) ++
   String.join (relLines m) ++
   "```\n")

/-- One per-table statistics entry (lines 194–200). -/
structure TableStats where
  name : String
  columns : Nat
  has_primary_key : Bool
  foreign_keys : Nat
  unique_constraints : Nat
deriving Repr, DecidableEq

/-- One per-schema statistics entry (lines 202–205). -/
structure SchemaDetail where
  tables : Nat
  table_details : List TableStats
deriving Repr, DecidableEq

/-- The statistics file content (lines 180–205). -/
structure Stats where
  timestamp : String
  schemas : Nat
  tables : Nat
  columns : Nat
  schema_details : List (String × SchemaDetail)
deriving Repr, DecidableEq

/-- The per-table statistics record (lines 194–200). -/
def tableStats (t : String) (td : TableInfo) : TableStats :=
  ⟨t, td.columns.length, td.primary_key.isSome,
   td.foreign_keys.length, td.unique_constraints.length⟩

/-- The per-schema statistics record (lines 188–205). -/
def schemaDetail (m : SchemaMap) (s : String) : SchemaDetail :=
  let ts := tableNames m s
  ⟨ts.length, ts.map (fun t => tableStats t (getTable m s t))⟩

/-- The statistics output (lines 162–205): totals computed by the two
counting loops, details by the second pass. -/
def statsOutput (m : SchemaMap) (ts : String) : Stats :=
  let ss := schemaNames m
  ⟨ts,
   ss.length,
   (ss.map (fun s => (tableNames m s).length)).sum,
   (ss.map (fun s =>
     ((tableNames m s).map (fun t => (getTable m s t).columns.length)).sum)).sum,
   ss.map (fun s => (s, schemaDetail m s))⟩

/-- The key of a record: the (schema, table) pair it is filed under. -/
def recKey (r : ColumnRecord) : String × String := (r.schema, r.table)

/-! ### Basic lemmas about the map operations -/

theorem lookupTable_updateTable_self (m : SchemaMap) (k : String × String)
    (f : TableInfo → TableInfo) :
    lookupTable (updateTable m k f) k =
      some (f ((lookupTable m k).getD TableInfo.empty)) := by
  induction m with
  | nil => simp [updateTable, lookupTable]
  | cons e rest ih =>
    by_cases h : e.1 = k
    · simp [updateTable, lookupTable, h]
    · have hb : (e.1 == k) = false := by simpa using h
      simp only [updateTable, if_neg h]
      simpa [lookupTable, List.find?_cons, hb] using ih

theorem lookupTable_updateTable_ne (m : SchemaMap) (k k' : String × String)
    (f : TableInfo → TableInfo) (h : k' ≠ k) :
    lookupTable (updateTable m k f) k' = lookupTable m k' := by
  induction m with
  | nil =>
    have hb : (k == k') = false := by simpa using (Ne.symm h)
    simp [updateTable, lookupTable, hb]
  | cons e rest ih =>
    by_cases he : e.1 = k
    · have hb : (k == k') = false := by simpa using (Ne.symm h)
      have hb' : (e.1 == k') = false := by simpa [he] using (Ne.symm h)
      simp [updateTable, lookupTable, he, hb, hb']
    · simp only [updateTable, if_neg he]
      by_cases he' : e.1 = k'
      · simp [lookupTable, he']
      · have hb : (e.1 == k') = false := by simpa using he'
        simpa [lookupTable, List.find?_cons, hb] using ih

theorem mapKeys_updateTable (m : SchemaMap) (k : String × String)
    (f : TableInfo → TableInfo) :
    mapKeys (updateTable m k f) =
      if k ∈ mapKeys m then mapKeys m else mapKeys m ++ [k] := by
  induction m with
  | nil => simp [updateTable, mapKeys]
  | cons e rest ih =>
    by_cases h : e.1 = k
    · simp [updateTable, mapKeys, h]
    · have hne : ¬ k = e.1 := fun hk => h hk.symm
      simp only [updateTable, if_neg h, mapKeys, List.map_cons, List.mem_cons]
      simp only [mapKeys] at ih
      rw [ih]
      by_cases hk : k ∈ rest.map (fun e => e.1) <;> simp [hk, hne]

theorem getTable_updateTable_self (m : SchemaMap) (s t : String)
    (f : TableInfo → TableInfo) :
    getTable (updateTable m (s, t) f) s t = f (getTable m s t) := by
  simp [getTable, lookupTable_updateTable_self]

theorem getTable_updateTable_ne (m : SchemaMap) (k : String × String)
    (s t : String) (f : TableInfo → TableInfo) (h : (s, t) ≠ k) :
    getTable (updateTable m k f) s t = getTable m s t := by
  simp [getTable, lookupTable_updateTable_ne m k (s, t) f h]

theorem getTable_addRecord_self (m : SchemaMap) (r : ColumnRecord) :
    getTable (addRecord m r) r.schema r.table =
      applyConstraint r
        { getTable m r.schema r.table with
          columns := (getTable m r.schema r.table).columns ++ [columnOf r] } := by
  simpa [addRecord] using
    getTable_updateTable_self m r.schema r.table
      (fun t => applyConstraint r { t with columns := t.columns ++ [columnOf r] })

theorem getTable_addRecord_ne (m : SchemaMap) (r : ColumnRecord)
    (s t : String) (h : (s, t) ≠ recKey r) :
    getTable (addRecord m r) s t = getTable m s t := by
  simpa [addRecord] using
    getTable_updateTable_ne m (r.schema, r.table) s t
      (fun t => applyConstraint r { t with columns := t.columns ++ [columnOf r] }) h

/-! ### Projections of the constraint registration step -/

theorem applyConstraint_columns (r : ColumnRecord) (t : TableInfo) :
    (applyConstraint r t).columns = t.columns := by
  unfold applyConstraint
  split
  · rfl
  · split
    · rfl
    · split <;> rfl

theorem applyConstraint_primary_key (r : ColumnRecord) (t : TableInfo) :
    (applyConstraint r t).primary_key =
      if r.constraint_type == "PRIMARY KEY" then some r.column
      else t.primary_key := by
  unfold applyConstraint
  split
  · simp_all
  · split
    · simp_all
    · split <;> simp_all

theorem applyConstraint_foreign_keys (r : ColumnRecord) (t : TableInfo) :
    (applyConstraint r t).foreign_keys =
      if r.constraint_type == "FOREIGN KEY" then
        t.foreign_keys ++ [⟨r.column, r.references_table⟩]
      else t.foreign_keys := by
  unfold applyConstraint
  split
  · rename_i h
    have : r.constraint_type = "PRIMARY KEY" := by simpa using h
    simp [this]
  · split
    · simp_all
    · split <;> simp_all

theorem applyConstraint_unique_constraints (r : ColumnRecord) (t : TableInfo) :
    (applyConstraint r t).unique_constraints =
      if r.constraint_type == "UNIQUE" then
        t.unique_constraints ++ [r.column]
      else t.unique_constraints := by
  unfold applyConstraint
  split
  · rename_i h
    have : r.constraint_type = "PRIMARY KEY" := by simpa using h
    simp [this]
  · split
    · rename_i h
      have : r.constraint_type = "FOREIGN KEY" := by simpa using h
      simp [this]
    · split <;> simp_all

/-! ### Invariants of the aggregation fold -/

theorem option_or_assoc (a b c : Option α) : (a.or b).or c = a.or (b.or c) := by
  cases a <;> rfl

theorem option_some_or (a : α) (b : Option α) : (some a).or b = some a := rfl

theorem getLast?_cons_or (a : α) (l : List α) :
    (a :: l).getLast? = l.getLast?.or (some a) := by
  cases l with
  | nil => rfl
  | cons b l' =>
    rcases hx : (b :: l').getLast? with _ | x
    · exact absurd (List.getLast?_eq_none_iff.mp hx) (by simp)
    · simp [List.getLast?_cons_cons, hx, Option.or]

theorem columns_foldl (rs : List ColumnRecord) (m : SchemaMap) (s t : String) :
    (getTable (rs.foldl addRecord m) s t).columns =
      (getTable m s t).columns ++
        (rs.filter (fun r => recKey r == (s, t))).map columnOf := by
  induction rs generalizing m with
  | nil => simp
  | cons r rs ih =>
    simp only [List.foldl_cons, List.filter_cons]
    by_cases h : recKey r = (s, t)
    · have hs : r.schema = s := congrArg Prod.fst h
      have ht : r.table = t := congrArg Prod.snd h
      rw [ih]
      subst hs ht
      rw [getTable_addRecord_self, applyConstraint_columns]
      simp [h]
    · have hb : (recKey r == (s, t)) = false := by simpa using h
      rw [ih, getTable_addRecord_ne m r s t (fun hk => h hk.symm)]
      simp [hb]

theorem primary_key_foldl (rs : List ColumnRecord) (m : SchemaMap) (s t : String) :
    (getTable (rs.foldl addRecord m) s t).primary_key =
      (((rs.filter (fun r =>
          recKey r == (s, t) && r.constraint_type == "PRIMARY KEY")).map
            (fun r => r.column)).getLast?).or
        (getTable m s t).primary_key := by
  induction rs generalizing m with
  | nil => simp
  | cons r rs ih =>
    simp only [List.foldl_cons, List.filter_cons]
    by_cases h : recKey r = (s, t)
    · have hs : r.schema = s := congrArg Prod.fst h
      have ht : r.table = t := congrArg Prod.snd h
      rw [ih]
      subst hs ht
      rw [getTable_addRecord_self, applyConstraint_primary_key]
      by_cases hpk : r.constraint_type = "PRIMARY KEY"
      · simp only [h, hpk, beq_self_eq_true, Bool.and_self, if_true, List.map_cons,
          getLast?_cons_or, option_or_assoc, option_some_or]
      · have hb : (r.constraint_type == "PRIMARY KEY") = false := by simpa using hpk
        simp [h, hb]
    · have hb : (recKey r == (s, t)) = false := by simpa using h
      rw [ih, getTable_addRecord_ne m r s t (fun hk => h hk.symm)]
      simp [hb]

theorem foreign_keys_foldl (rs : List ColumnRecord) (m : SchemaMap) (s t : String) :
    (getTable (rs.foldl addRecord m) s t).foreign_keys =
      (getTable m s t).foreign_keys ++
        (rs.filter (fun r =>
          recKey r == (s, t) && r.constraint_type == "FOREIGN KEY")).map
            (fun r => (⟨r.column, r.references_table⟩ : ForeignKey)) := by
  induction rs generalizing m with
  | nil => simp
  | cons r rs ih =>
    simp only [List.foldl_cons, List.filter_cons]
    by_cases h : recKey r = (s, t)
    · have hs : r.schema = s := congrArg Prod.fst h
      have ht : r.table = t := congrArg Prod.snd h
      rw [ih]
      subst hs ht
      rw [getTable_addRecord_self, applyConstraint_foreign_keys]
      by_cases hfk : r.constraint_type = "FOREIGN KEY"
      · simp [h, hfk]
      · have hb : (r.constraint_type == "FOREIGN KEY") = false := by simpa using hfk
        simp [h, hb]
    · have hb : (recKey r == (s, t)) = false := by simpa using h
      rw [ih, getTable_addRecord_ne m r s t (fun hk => h hk.symm)]
      simp [hb]

theorem unique_constraints_foldl (rs : List ColumnRecord) (m : SchemaMap)
    (s t : String) :
    (getTable (rs.foldl addRecord m) s t).unique_constraints =
      (getTable m s t).unique_constraints ++
        (rs.filter (fun r =>
          recKey r == (s, t) && r.constraint_type == "UNIQUE")).map
            (fun r => r.column) := by
  induction rs generalizing m with
  | nil => simp
  | cons r rs ih =>
    simp only [List.foldl_cons, List.filter_cons]
    by_cases h : recKey r = (s, t)
    · have hs : r.schema = s := congrArg Prod.fst h
      have ht : r.table = t := congrArg Prod.snd h
      rw [ih]
      subst hs ht
      rw [getTable_addRecord_self, applyConstraint_unique_constraints]
      by_cases hu : r.constraint_type = "UNIQUE"
      · simp [h, hu]
      · have hb : (r.constraint_type == "UNIQUE") = false := by simpa using hu
        simp [h, hb]
    · have hb : (recKey r == (s, t)) = false := by simpa using h
      rw [ih, getTable_addRecord_ne m r s t (fun hk => h hk.symm)]
      simp [hb]

theorem mapKeys_addRecord (m : SchemaMap) (r : ColumnRecord) :
    mapKeys (addRecord m r) =
      if recKey r ∈ mapKeys m then mapKeys m else mapKeys m ++ [recKey r] := by
  simpa [addRecord, recKey] using
    mapKeys_updateTable m (r.schema, r.table)
      (fun t => applyConstraint r { t with columns := t.columns ++ [columnOf r] })

theorem mem_mapKeys_foldl (rs : List ColumnRecord) (m : SchemaMap)
    (p : String × String) :
    p ∈ mapKeys (rs.foldl addRecord m) ↔
      p ∈ mapKeys m ∨ ∃ r ∈ rs, recKey r = p := by
  induction rs generalizing m with
  | nil => simp
  | cons r rs ih =>
    simp only [List.foldl_cons, ih, mapKeys_addRecord]
    by_cases h : recKey r ∈ mapKeys m
    · simp only [if_pos h]
      constructor
      · rintro (hp | hp)
        · exact Or.inl hp
        · rcases hp with ⟨a, ha, hk⟩
          exact Or.inr ⟨a, List.mem_cons_of_mem _ ha, hk⟩
      · rintro (hp | ⟨a, ha, hk⟩)
        · exact Or.inl hp
        · rcases List.mem_cons.mp ha with rfl | ha'
          · exact Or.inl (hk ▸ h)
          · exact Or.inr ⟨a, ha', hk⟩
    · simp only [if_neg h, List.mem_append, List.mem_singleton]
      constructor
      · rintro ((hp | hp) | hp)
        · exact Or.inl hp
        · exact Or.inr ⟨r, by simp, hp.symm⟩
        · rcases hp with ⟨a, ha, hk⟩
          exact Or.inr ⟨a, List.mem_cons_of_mem _ ha, hk⟩
      · rintro (hp | ⟨a, ha, hk⟩)
        · exact Or.inl (Or.inl hp)
        · rcases List.mem_cons.mp ha with rfl | ha'
          · exact Or.inl (Or.inr hk.symm)
          · exact Or.inr ⟨a, ha', hk⟩

theorem nodup_mapKeys_foldl (rs : List ColumnRecord) (m : SchemaMap)
    (h : (mapKeys m).Nodup) : (mapKeys (rs.foldl addRecord m)).Nodup := by
  induction rs generalizing m with
  | nil => exact h
  | cons r rs ih =>
    simp only [List.foldl_cons]
    refine ih _ ?_
    rw [mapKeys_addRecord]
    by_cases hm : recKey r ∈ mapKeys m
    · simpa [hm] using h
    · simp [hm, List.nodup_append, h]

theorem analyze_keys_nodup (rs : List ColumnRecord) :
    (mapKeys (analyze rs)).Nodup :=
  nodup_mapKeys_foldl rs [] (by simp [mapKeys])

theorem mem_mapKeys_analyze (rs : List ColumnRecord) (p : String × String) :
    p ∈ mapKeys (analyze rs) ↔ ∃ r ∈ rs, recKey r = p := by
  simpa [analyze, mapKeys] using mem_mapKeys_foldl rs [] p

/-! ### Iteration order: dedup, sorting and nodup lookup -/

theorem mem_dedupKeepFirst (a : String) (l : List String) :
    a ∈ dedupKeepFirst l ↔ a ∈ l := by
  induction l with
  | nil => simp [dedupKeepFirst]
  | cons x xs ih =>
    simp only [dedupKeepFirst, List.mem_cons, List.mem_filter, ih]
    by_cases h : a = x <;> simp [h]

theorem nodup_dedupKeepFirst (l : List String) : (dedupKeepFirst l).Nodup := by
  induction l with
  | nil => simp [dedupKeepFirst]
  | cons x xs ih =>
    simp only [dedupKeepFirst, List.nodup_cons]
    refine ⟨fun hx => ?_, ih.filter _⟩
    have := (List.mem_filter.mp hx).2
    simp at this

theorem lookupTable_eq_of_mem (m : SchemaMap) (hm : (mapKeys m).Nodup)
    (e : (String × String) × TableInfo) (he : e ∈ m) :
    lookupTable m e.1 = some e.2 := by
  induction m with
  | nil => cases he
  | cons f rest ih =>
    simp only [mapKeys, List.map_cons, List.nodup_cons] at hm
    rcases List.mem_cons.mp he with rfl | he'
    · simp [lookupTable, List.find?_cons]
    · have hkey : e.1 ∈ rest.map (fun x => x.1) := List.mem_map_of_mem _ he'
      have hne : f.1 ≠ e.1 := fun hk => hm.1 (hk.symm ▸ hkey)
      have hb : (f.1 == e.1) = false := by simpa using hne
      have hrec := ih (by simpa [mapKeys] using hm.2) he'
      simpa [lookupTable, List.find?_cons, hb] using hrec

theorem getTable_eq_of_mem (m : SchemaMap) (hm : (mapKeys m).Nodup)
    (e : (String × String) × TableInfo) (he : e ∈ m) :
    getTable m e.1.1 e.1.2 = e.2 := by
  simp [getTable, lookupTable_eq_of_mem m hm e he]

/-! ### Counting relationship lines -/

theorem fkLine_isSome (s t : String) (fk : ForeignKey) :
    (fkLine s t fk).isSome = refValid fk.references := by
  rcases fk with ⟨c, _ | r⟩
  · rfl
  · by_cases hr : r = ""
    · subst hr
      rfl
    · have ht : truthy (some r) = true := by simpa [truthy] using hr
      simp only [fkLine, refValid, ht, if_true, pyStr]
      rcases hsp : splitDot r with _ | ⟨a, _ | ⟨b, _ | _⟩⟩ <;> simp [hsp]

theorem filterMap_length_countP (l : List ForeignKey) (s t : String) :
    (l.filterMap (fkLine s t)).length =
      l.countP (fun fk => refValid fk.references) := by
  induction l with
  | nil => rfl
  | cons x xs ih =>
    simp only [List.filterMap_cons, List.countP_cons]
    have hx := fkLine_isSome s t x
    cases hfk : fkLine s t x with
    | none =>
      rw [hfk] at hx
      simp only [Option.isSome_none] at hx
      simp [← hx, ih]
    | some y =>
      rw [hfk] at hx
      simp only [Option.isSome_some] at hx
      simp [← hx, ih]

theorem sum_map_filter_split {α : Type} (m : List α) (p : α → Bool) (g : α → Nat) :
    ((m.filter p).map g).sum + ((m.filter (fun e => !(p e))).map g).sum =
      (m.map g).sum := by
  induction m with
  | nil => rfl
  | cons a l ih =>
    by_cases h : p a = true <;>
      simp [List.filter_cons, h, Nat.add_assoc, Nat.add_left_comm, ih]

theorem sum_over_partition {α : Type} (key : α → String) (g : α → Nat) :
    ∀ (S : List String) (m : List α), S.Nodup → (∀ e ∈ m, key e ∈ S) →
      (S.map (fun s => ((m.filter (fun e => key e == s)).map g).sum)).sum =
        (m.map g).sum := by
  intro S
  induction S with
  | nil =>
    intro m _ hm
    have : m = [] := List.eq_nil_iff_forall_not_mem.mpr (fun e he => by
      simpa using hm e he)
    simp [this]
  | cons s S' ih =>
    intro m hS hm
    have hs_notmem : s ∉ S' := (List.nodup_cons.mp hS).1
    have hS' : S'.Nodup := (List.nodup_cons.mp hS).2
    simp only [List.map_cons, List.sum_cons]
    have hcongr : ∀ s' ∈ S',
        ((m.filter (fun e => key e == s')).map g).sum =
          (((m.filter (fun e => !(key e == s))).filter
            (fun e => key e == s')).map g).sum := by
      intro s' hs'
      have hne : s' ≠ s := fun hk => hs_notmem (hk ▸ hs')
      have hf : (m.filter (fun e => key e == s')) =
          ((m.filter (fun e => !(key e == s))).filter
            (fun e => key e == s')) := by
        rw [List.filter_filter]
        apply List.filter_congr
        intro e _
        by_cases hke : key e = s'
        · have h2 : (s' == s) = false := by simpa using hne
          simp [hke, h2]
        · have h1 : (key e == s') = false := by simpa using hke
          simp [h1]
      rw [← hf]
    rw [List.map_congr_left hcongr]
    rw [ih (m.filter (fun e => !(key e == s))) hS' ?_]
    · exact sum_map_filter_split m (fun e => key e == s) g
    · intro e he
      have hem : e ∈ m := (List.mem_filter.mp he).1
      have hneq : (key e == s) = false := by
        have := (List.mem_filter.mp he).2
        simpa using this
      have hks : key e ∈ s :: S' := hm e hem
      rcases List.mem_cons.mp hks with hk | hk
      · rw [hk] at hneq
        simp at hneq
      · exact hk

theorem sortStr_map_sum (l : List String) (f : String → Nat) :
    ((sortStr l).map f).sum = (l.map f).sum :=
  ((List.perm_insertionSort _ l).map f).sum_eq

theorem tableFkLines_length (m : SchemaMap) (s t : String) :
    (tableFkLines m s t).length =
      (getTable m s t).foreign_keys.countP (fun fk => refValid fk.references) :=
  filterMap_length_countP _ s t

theorem tableNames_sum (m : SchemaMap) (hm : (mapKeys m).Nodup) (s : String)
    (cnt : TableInfo → Nat) :
    ((tableNames m s).map (fun t => cnt (getTable m s t))).sum =
      ((m.filter (fun e => e.1.1 == s)).map (fun e => cnt e.2)).sum := by
  unfold tableNames
  rw [List.map_map]
  refine congrArg List.sum (List.map_congr_left ?_)
  intro e he
  have hem : e ∈ m := (List.mem_filter.mp he).1
  have hs : e.1.1 = s := by simpa using (List.mem_filter.mp he).2
  have h2 := getTable_eq_of_mem m hm e hem
  rw [hs] at h2
  simp only [Function.comp_apply, h2]

theorem mem_schemaNames (m : SchemaMap) (e : (String × String) × TableInfo)
    (he : e ∈ m) : e.1.1 ∈ schemaNames m := by
  rw [schemaNames, mem_dedupKeepFirst]
  exact List.mem_map_of_mem _ he

theorem relLines_length (m : SchemaMap) (hm : (mapKeys m).Nodup) :
    (relLines m).length =
      (m.map (fun e =>
        e.2.foreign_keys.countP (fun fk => refValid fk.references))).sum := by
  have hinner : ∀ s,
      (((sortStr (tableNames m s)).map (fun t => tableFkLines m s t)).flatten).length =
        ((m.filter (fun e => e.1.1 == s)).map (fun e =>
          e.2.foreign_keys.countP (fun fk => refValid fk.references))).sum := by
    intro s
    rw [List.length_flatten, List.map_map]
    have hpt : ((sortStr (tableNames m s)).map
          (List.length ∘ fun t => tableFkLines m s t)).sum =
        ((sortStr (tableNames m s)).map (fun t =>
          (getTable m s t).foreign_keys.countP
            (fun fk => refValid fk.references))).sum := by
      refine congrArg List.sum (List.map_congr_left ?_)
      intro t _
      simp only [Function.comp_apply, tableFkLines_length]
    rw [hpt, sortStr_map_sum]
    exact tableNames_sum m hm s
      (fun td => td.foreign_keys.countP (fun fk => refValid fk.references))
  unfold relLines
  rw [List.length_flatten, List.map_map]
  have hout : ((sortStr (schemaNames m)).map
        (List.length ∘ fun s =>
          ((sortStr (tableNames m s)).map (fun t => tableFkLines m s t)).flatten)).sum =
      ((sortStr (schemaNames m)).map (fun s =>
        ((m.filter (fun e => e.1.1 == s)).map (fun e =>
          e.2.foreign_keys.countP (fun fk => refValid fk.references))).sum)).sum := by
    refine congrArg List.sum (List.map_congr_left ?_)
    intro s _
    simp only [Function.comp_apply]
    exact hinner s
  rw [hout, sortStr_map_sum]
  exact sum_over_partition (fun e => e.1.1)
    (fun e => e.2.foreign_keys.countP (fun fk => refValid fk.references))
    (schemaNames m) m (nodup_dedupKeepFirst _)
    (fun e he => mem_schemaNames m e he)

/-! ### The parsing step -/

theorem option_or_none (a : Option α) : a.or none = a := by
  cases a <;> rfl

theorem parseRecord_error_iff (r : RawRecord) :
    parseRecord r = Except.error AggError.MalformedInput ↔
      missingField r = true := by
  rcases r with ⟨s, t, c, dt, nu, ct, rt⟩
  cases s <;> cases t <;> cases c <;> cases dt <;> cases nu <;> cases ct <;>
    cases rt <;> simp [parseRecord, missingField]

theorem parseRecord_ok_of (r : RawRecord) (h : missingField r = false) :
    ∃ c, parseRecord r = Except.ok c := by
  cases hp : parseRecord r with
  | error e =>
    cases e
    rw [parseRecord_error_iff r] at hp
    rw [hp] at h
    cases h
  | ok c => exact ⟨c, rfl⟩

theorem parseAll_error (rs : List RawRecord)
    (h : ∃ r ∈ rs, missingField r = true) :
    parseAll rs = Except.error AggError.MalformedInput := by
  induction rs with
  | nil => simp at h
  | cons r rs ih =>
    cases hp : parseRecord r with
    | error e =>
      cases e
      simp [parseAll, hp]
    | ok c =>
      have hr : missingField r = false := by
        cases hm : missingField r
        · rfl
        · have := (parseRecord_error_iff r).mpr hm
          rw [hp] at this
          cases this
      have hrs : ∃ x ∈ rs, missingField x = true := by
        rcases h with ⟨x, hx, hmx⟩
        rcases List.mem_cons.mp hx with rfl | hx'
        · rw [hr] at hmx
          cases hmx
        · exact ⟨x, hx', hmx⟩
      simp [parseAll, hp, ih hrs]

theorem parseAll_ok (rs : List RawRecord)
    (h : ∀ r ∈ rs, missingField r = false) :
    ∃ cs, parseAll rs = Except.ok cs := by
  induction rs with
  | nil => exact ⟨[], rfl⟩
  | cons r rs ih =>
    rcases parseRecord_ok_of r (h r (by simp)) with ⟨c, hc⟩
    rcases ih (fun x hx => h x (List.mem_cons_of_mem _ hx)) with ⟨cs, hcs⟩
    exact ⟨c :: cs, by simp [parseAll, hc, hcs]⟩

/-! ### The claims -/

/-- Claim C1, counterexample: feeding the same (schema, table, column) row
twice yields two column entries with the same name in that table's column
list, so a column name does not appear exactly once. -/
theorem claim1_counterexample :
    ((getTable (analyze
      [⟨"public", "users", "id", "uuid", "NOT NULL", "PRIMARY KEY", none⟩,
       ⟨"public", "users", "id", "uuid", "NOT NULL", "PRIMARY KEY", none⟩])
      "public" "users").columns.map Column.name) = ["id", "id"] := by decide

/-- Claim C1, amended: every input row appends one column entry to its
(schema, table) table, so the table's column list is exactly, in order, the
column descriptors of the input rows filed under that (schema, table);
repeated rows therefore add duplicate entries rather than merging. -/
theorem claim1_theorem (rs : List ColumnRecord) (s t : String) :
    (getTable (analyze rs) s t).columns =
      (rs.filter (fun r => recKey r == (s, t))).map columnOf := by
  have h := columns_foldl rs [] s t
  simpa [analyze, getTable, lookupTable, TableInfo.empty] using h

/-- Claim C2: aggregation fails with MalformedInput exactly on inputs
containing a record that lacks one of the seven required fields, and
succeeds when every record has all of them. -/
theorem claim2_theorem (rs : List RawRecord) :
    ((∃ r ∈ rs, missingField r = true) →
      analyzeRaw rs = Except.error AggError.MalformedInput) ∧
    ((∀ r ∈ rs, missingField r = false) →
      ∃ m, analyzeRaw rs = Except.ok m) := by
  constructor
  · intro h
    rw [analyzeRaw, parseAll_error rs h]
  · intro h
    rcases parseAll_ok rs h with ⟨cs, hcs⟩
    exact ⟨analyze cs, by rw [analyzeRaw, hcs]⟩

/-- Witness for C2: a record with a missing schema field fails, a complete
record does not. -/
theorem claim2_witness :
    analyzeRaw
      [⟨none, some "users", some "id", some "uuid", some "NULL", some "",
        some none⟩] = Except.error AggError.MalformedInput ∧
    ∃ m, analyzeRaw
      [⟨some "public", some "users", some "id", some "uuid", some "NULL",
        some "", some none⟩] = Except.ok m :=
  ⟨(claim2_theorem _).1 (by decide), (claim2_theorem _).2 (by decide)⟩

/-- Claim C3: the relationship view emits exactly one line per foreign-key
entry whose reference splits into exactly two dot-separated parts, and an
entry whose reference does not is skipped (producing no line, no failure). -/
theorem claim3_theorem (rs : List ColumnRecord) :
    (relLines (analyze rs)).length =
      ((analyze rs).map (fun e =>
        e.2.foreign_keys.countP (fun fk => refValid fk.references))).sum ∧
    (∀ s t fk, refValid fk.references = false → fkLine s t fk = none) := by
  refine ⟨relLines_length (analyze rs) (analyze_keys_nodup rs), ?_⟩
  intro s t fk h
  cases hfk : fkLine s t fk with
  | none => rfl
  | some l =>
    have hs := fkLine_isSome s t fk
    rw [hfk, h] at hs
    cases hs

/-- Witness for C3: one valid and one malformed reference give exactly one
relationship line, and a malformed reference yields no line. -/
theorem claim3_witness :
    (relLines (analyze
      [⟨"public", "posts", "user_id", "uuid", "NULL", "FOREIGN KEY",
        some "public.users"⟩,
       ⟨"public", "posts", "bad", "uuid", "NULL", "FOREIGN KEY",
        some "nodot"⟩])).length = 1 ∧
    fkLine "public" "posts" ⟨"bad", some "nodot"⟩ = none :=
  ⟨( claim3_theorem
      [⟨"public", "posts", "user_id", "uuid", "NULL", "FOREIGN KEY",
        some "public.users"⟩,
       ⟨"public", "posts", "bad", "uuid", "NULL", "FOREIGN KEY",
        some "nodot"⟩]).1.trans (by decide),
   (claim3_theorem []).2 "public" "posts" ⟨"bad", some "nodot"⟩ (by decide)⟩

/-- Claim C4: a PRIMARY KEY record sets its table's primary key to its own
column name, and over a whole run the stored primary key is the column of
the last PRIMARY KEY record of that table (last-write-wins, no error). -/
theorem claim4_theorem (rs : List ColumnRecord) (m : SchemaMap)
    (r : ColumnRecord) (s t : String)
    (hpk : r.constraint_type = "PRIMARY KEY") :
    (getTable (addRecord m r) r.schema r.table).primary_key = some r.column ∧
    (getTable (analyze rs) s t).primary_key =
      ((rs.filter (fun x =>
        recKey x == (s, t) && x.constraint_type == "PRIMARY KEY")).map
          (fun x => x.column)).getLast? := by
  constructor
  · rw [getTable_addRecord_self, applyConstraint_primary_key]
    simp [hpk]
  · have h := primary_key_foldl rs [] s t
    simp only [analyze]
    rw [h]
    simp [getTable, lookupTable, TableInfo.empty, option_or_none]

/-- Witness for C4: with two PRIMARY KEY rows for the same table the second
one wins. -/
theorem claim4_witness :
    (getTable (analyze
      [⟨"public", "users", "id", "uuid", "NOT NULL", "PRIMARY KEY", none⟩,
       ⟨"public", "users", "email", "text", "NOT NULL", "PRIMARY KEY", none⟩])
      "public" "users").primary_key = some "email" := by
  have h := ( claim4_theorem
    [⟨"public", "users", "id", "uuid", "NOT NULL", "PRIMARY KEY", none⟩,
     ⟨"public", "users", "email", "text", "NOT NULL", "PRIMARY KEY", none⟩]
    [] ⟨"public", "users", "id", "uuid", "NOT NULL", "PRIMARY KEY", none⟩
    "public" "users" rfl).2
  rw [h]
  decide

/-- Claim C5: the statistics totals equal the sums of the per-schema table
counts and per-table column counts, and every per-table record reports that
table's foreign-key count, unique-constraint count and primary-key flag. -/
theorem claim5_theorem (m : SchemaMap) (ts : String) :
    (statsOutput m ts).tables =
      ((statsOutput m ts).schema_details.map (fun p => p.2.tables)).sum ∧
    (statsOutput m ts).columns =
      ((statsOutput m ts).schema_details.map (fun p =>
        (p.2.table_details.map (fun td => td.columns)).sum)).sum ∧
    (∀ p ∈ (statsOutput m ts).schema_details, ∀ td ∈ p.2.table_details,
      td.foreign_keys = (getTable m p.1 td.name).foreign_keys.length ∧
      td.unique_constraints =
        (getTable m p.1 td.name).unique_constraints.length ∧
      td.has_primary_key = (getTable m p.1 td.name).primary_key.isSome) := by
  refine ⟨?_, ?_, ?_⟩
  · simp [statsOutput, schemaDetail, List.map_map, Function.comp_def]
  · simp [statsOutput, schemaDetail, tableStats, List.map_map,
      Function.comp_def]
  · intro p hp td htd
    simp only [statsOutput, List.mem_map] at hp
    rcases hp with ⟨s, _, rfl⟩
    simp only [schemaDetail, List.mem_map] at htd
    rcases htd with ⟨t, _, rfl⟩
    exact ⟨rfl, rfl, rfl⟩

/-- Witness for C5: the per-table record of a concrete run reports the
stored foreign-key count. -/
theorem claim5_witness :
    ("public",
      schemaDetail (analyze
        [⟨"public", "users", "id", "uuid", "NOT NULL", "PRIMARY KEY", none⟩,
         ⟨"public", "users", "org", "uuid", "NULL", "FOREIGN KEY",
           some "public.orgs"⟩]) "public") ∈
      (statsOutput (analyze
        [⟨"public", "users", "id", "uuid", "NOT NULL", "PRIMARY KEY", none⟩,
         ⟨"public", "users", "org", "uuid", "NULL", "FOREIGN KEY",
           some "public.orgs"⟩]) "T").schema_details ∧
    (tableStats "users" (getTable (analyze
        [⟨"public", "users", "id", "uuid", "NOT NULL", "PRIMARY KEY", none⟩,
         ⟨"public", "users", "org", "uuid", "NULL", "FOREIGN KEY",
           some "public.orgs"⟩]) "public" "users")).foreign_keys =
      (getTable (analyze
        [⟨"public", "users", "id", "uuid", "NOT NULL", "PRIMARY KEY", none⟩,
         ⟨"public", "users", "org", "uuid", "NULL", "FOREIGN KEY",
           some "public.orgs"⟩]) "public" "users").foreign_keys.length :=
  ⟨by decide,
   ((claim5_theorem (analyze
      [⟨"public", "users", "id", "uuid", "NOT NULL", "PRIMARY KEY", none⟩,
       ⟨"public", "users", "org", "uuid", "NULL", "FOREIGN KEY",
         some "public.orgs"⟩]) "T").2.2
      ("public",
        schemaDetail (analyze
          [⟨"public", "users", "id", "uuid", "NOT NULL", "PRIMARY KEY", none⟩,
           ⟨"public", "users", "org", "uuid", "NULL", "FOREIGN KEY",
             some "public.orgs"⟩]) "public") (by decide)
      (tableStats "users" (getTable (analyze
          [⟨"public", "users", "id", "uuid", "NOT NULL", "PRIMARY KEY", none⟩,
           ⟨"public", "users", "org", "uuid", "NULL", "FOREIGN KEY",
             some "public.orgs"⟩]) "public" "users")) (by decide)).1⟩

/-- Claim C6: the key set of the aggregated map is exactly the set of
distinct (schema, table) pairs of the input, each occurring once. -/
theorem claim6_theorem (rs : List ColumnRecord) :
    (mapKeys (analyze rs)).Nodup ∧
    (∀ p, p ∈ mapKeys (analyze rs) ↔ ∃ r ∈ rs, recKey r = p) :=
  ⟨analyze_keys_nodup rs, fun p => mem_mapKeys_analyze rs p⟩

/-- Witness for C6 at a concrete input with a repeated pair. -/
theorem claim6_witness :
    (mapKeys (analyze
      [⟨"public", "users", "id", "uuid", "NOT NULL", "PRIMARY KEY", none⟩,
       ⟨"public", "posts", "id", "uuid", "NOT NULL", "PRIMARY KEY", none⟩,
       ⟨"public", "users", "email", "text", "NULL", "", none⟩])).Nodup ∧
    (("public", "users") ∈ mapKeys (analyze
      [⟨"public", "users", "id", "uuid", "NOT NULL", "PRIMARY KEY", none⟩,
       ⟨"public", "posts", "id", "uuid", "NOT NULL", "PRIMARY KEY", none⟩,
       ⟨"public", "users", "email", "text", "NULL", "", none⟩]) ↔
      ∃ r ∈
        [⟨"public", "users", "id", "uuid", "NOT NULL", "PRIMARY KEY", none⟩,
         ⟨"public", "posts", "id", "uuid", "NOT NULL", "PRIMARY KEY", none⟩,
         (⟨"public", "users", "email", "text", "NULL", "", none⟩ :
           ColumnRecord)], recKey r = ("public", "users")) :=
  ⟨(claim6_theorem _).1, (claim6_theorem _).2 ("public", "users")⟩

/-- Claim C7: each of the three outputs decomposes into a fixed part, the
timestamp, and a part depending only on the aggregated records, so two runs
on the same input differ only in the embedded timestamp. -/
theorem claim7_theorem (m : SchemaMap) (ts ts' : String) :
    runSummary m ts =
      "# Resumen del Esquema de Base de Datos\n\n*Generado el: " ++ ts ++
        ("*\n\n" ++ summaryBody m) ∧
    runRelations m ts =
      "# Relaciones entre Tablas\n\n*Generado el: " ++ ts ++
        ("*\n\n" ++ relationsBody m) ∧
    (statsOutput m ts).timestamp = ts ∧
    (statsOutput m ts).schemas = (statsOutput m ts').schemas ∧
    (statsOutput m ts).tables = (statsOutput m ts').tables ∧
    (statsOutput m ts).columns = (statsOutput m ts').columns ∧
    (statsOutput m ts).schema_details = (statsOutput m ts').schema_details := by
  refine ⟨?_, ?_, rfl, rfl, rfl, rfl, rfl⟩
  · have h : ("# Resumen del Esquema de Base de Datos\n\n*Generado el: " :
        String) =
        "# Resumen del Esquema de Base de Datos\n\n" ++ "*Generado el: " := by
      decide
    rw [runSummary, summaryBody]
    simp only [String.append_assoc]
    rw [← String.append_assoc, ← h]
  · have h : ("# Relaciones entre Tablas\n\n*Generado el: " : String) =
        "# Relaciones entre Tablas\n\n" ++ "*Generado el: " := by decide
    rw [runRelations, relationsBody]
    simp only [String.append_assoc]
    rw [← String.append_assoc, ← h]

/-- Claim C8: the derived nullable flag is the comparison of the record's
nullable field with the literal string NULL, and the markdown row renders
it as Sí when the flag holds and No otherwise. -/
theorem claim8_theorem (r : ColumnRecord) (td : TableInfo) :
    (columnOf r).nullable = (r.nullable == "NULL") ∧
    mdRow td (columnOf r) =
      "| " ++ r.column ++ " | " ++ r.data_type ++ " | " ++
      (if r.nullable == "NULL" then "Sí" else "No") ++ " | " ++
      String.intercalate ", " (colConstraints td (columnOf r)) ++ " |\n" :=
  ⟨rfl, rfl⟩

/-- Claim C9: a FOREIGN KEY record with a null reference is still appended
to the foreign-key list, its markdown constraint label reads FK → None,
and the relationship diagram emits no line for it. -/
theorem claim9_theorem (m : SchemaMap) (r : ColumnRecord) (td : TableInfo)
    (c : Column) (s t : String)
    (h1 : r.constraint_type = "FOREIGN KEY")
    (h2 : r.references_table = none)
    (h3 : td.foreign_keys.find? (fun fk => fk.column == c.name) =
      some ⟨c.name, none⟩) :
    (getTable (addRecord m r) r.schema r.table).foreign_keys =
      (getTable m r.schema r.table).foreign_keys ++ [⟨r.column, none⟩] ∧
    colConstraints td c =
      (if td.primary_key == some c.name then ["PRIMARY KEY"] else []) ++
      (if td.unique_constraints.contains c.name then ["UNIQUE"] else []) ++
      ["FK → None"] ∧
    fkLine s t ⟨c.name, none⟩ = none := by
  refine ⟨?_, ?_, rfl⟩
  · rw [getTable_addRecord_self, applyConstraint_foreign_keys]
    simp [h1, h2]
  · rw [colConstraints, h3]
    rfl

/-- Witness for C9 at a concrete null-reference foreign key. -/
theorem claim9_witness :
    (getTable (addRecord []
      ⟨"public", "posts", "user_id", "uuid", "NULL", "FOREIGN KEY", none⟩)
      "public" "posts").foreign_keys = [⟨"user_id", none⟩] ∧
    colConstraints (getTable (analyze
      [⟨"public", "posts", "user_id", "uuid", "NULL", "FOREIGN KEY", none⟩])
      "public" "posts") ⟨"user_id", "uuid", true⟩ = ["FK → None"] ∧
    fkLine "public" "posts" ⟨"user_id", none⟩ = none :=
  ⟨((claim9_theorem []
      ⟨"public", "posts", "user_id", "uuid", "NULL", "FOREIGN KEY", none⟩
      (getTable (analyze
        [⟨"public", "posts", "user_id", "uuid", "NULL", "FOREIGN KEY", none⟩])
        "public" "posts") ⟨"user_id", "uuid", true⟩ "public" "posts"
      rfl rfl (by decide)).1).trans (by decide),
   ((claim9_theorem []
      ⟨"public", "posts", "user_id", "uuid", "NULL", "FOREIGN KEY", none⟩
      (getTable (analyze
        [⟨"public", "posts", "user_id", "uuid", "NULL", "FOREIGN KEY", none⟩])
        "public" "posts") ⟨"user_id", "uuid", true⟩ "public" "posts"
      rfl rfl (by decide)).2.1).trans (by decide),
   (claim9_theorem []
      ⟨"public", "posts", "user_id", "uuid", "NULL", "FOREIGN KEY", none⟩
      (getTable (analyze
        [⟨"public", "posts", "user_id", "uuid", "NULL", "FOREIGN KEY", none⟩])
        "public" "posts") ⟨"user_id", "uuid", true⟩ "public" "posts"
      rfl rfl (by decide)).2.2⟩

/-- Claim C10, counterexample: with two foreign-key entries for the same
column, one of them malformed, the markdown label uses the first entry but
the diagram emits only one line, not one per entry. -/
theorem claim10_counterexample :
    ((getTable (analyze
      [⟨"public", "posts", "user_id", "uuid", "NULL", "FOREIGN KEY",
        some "public.users"⟩,
       ⟨"public", "posts", "user_id", "uuid", "NULL", "FOREIGN KEY",
        some "nodot"⟩]) "public" "posts").foreign_keys.map
          ForeignKey.column) = ["user_id", "user_id"] ∧
    colConstraints (getTable (analyze
      [⟨"public", "posts", "user_id", "uuid", "NULL", "FOREIGN KEY",
        some "public.users"⟩,
       ⟨"public", "posts", "user_id", "uuid", "NULL", "FOREIGN KEY",
        some "nodot"⟩]) "public" "posts") ⟨"user_id", "uuid", true⟩ =
      ["FK → public.users"] ∧
    (relLines (analyze
      [⟨"public", "posts", "user_id", "uuid", "NULL", "FOREIGN KEY",
        some "public.users"⟩,
       ⟨"public", "posts", "user_id", "uuid", "NULL", "FOREIGN KEY",
        some "nodot"⟩])).length = 1 := by
  refine ⟨by decide, by decide, by decide⟩

/-- Claim C10, amended: with several foreign-key entries for one column the
markdown label uses the first entry in insertion order, and the diagram
emits one line per entry whose reference is truthy and splits into exactly
two dot-separated parts. -/
theorem claim10_theorem (td : TableInfo) (c : Column) (s t : String)
    (pre post : List ForeignKey) (fk : ForeignKey)
    (h1 : td.foreign_keys = pre ++ fk :: post)
    (h2 : fk.column = c.name)
    (h3 : ∀ k ∈ pre, k.column ≠ c.name) :
    td.foreign_keys.find? (fun k => k.column == c.name) = some fk ∧
    colConstraints td c =
      (if td.primary_key == some c.name then ["PRIMARY KEY"] else []) ++
      (if td.unique_constraints.contains c.name then ["UNIQUE"] else []) ++
      ["FK → " ++ pyStr fk.references] ∧
    (td.foreign_keys.filterMap (fkLine s t)).length =
      td.foreign_keys.countP (fun k => refValid k.references) := by
  have haux : ∀ (l : List ForeignKey), (∀ k ∈ l, k.column ≠ c.name) →
      (l ++ fk :: post).find? (fun k => k.column == c.name) = some fk := by
    intro l
    induction l with
    | nil =>
      intro _
      simp [List.find?_cons, h2]
    | cons a l ih =>
      intro hpre
      have ha : (a.column == c.name) = false := by
        simpa using hpre a (by simp)
      simp only [List.cons_append, List.find?_cons, ha]
      exact ih (fun k hk => hpre k (List.mem_cons_of_mem _ hk))
  have hfind : td.foreign_keys.find? (fun k => k.column == c.name) = some fk := by
    rw [h1]
    exact haux pre h3
  refine ⟨hfind, ?_, filterMap_length_countP _ s t⟩
  rw [colConstraints, hfind]

/-- Witness for C10, amended version, at a concrete duplicated column. -/
theorem claim10_witness :
    colConstraints (getTable (analyze
      [⟨"public", "posts", "user_id", "uuid", "NULL", "FOREIGN KEY",
        some "public.users"⟩,
       ⟨"public", "posts", "user_id", "uuid", "NULL", "FOREIGN KEY",
        some "public.orgs"⟩]) "public" "posts") ⟨"user_id", "uuid", true⟩ =
      ["FK → public.users"] ∧
    ((getTable (analyze
      [⟨"public", "posts", "user_id", "uuid", "NULL", "FOREIGN KEY",
        some "public.users"⟩,
       ⟨"public", "posts", "user_id", "uuid", "NULL", "FOREIGN KEY",
        some "public.orgs"⟩]) "public" "posts").foreign_keys.filterMap
          (fkLine "public" "posts")).length = 2 :=
  ⟨((claim10_theorem (getTable (analyze
      [⟨"public", "posts", "user_id", "uuid", "NULL", "FOREIGN KEY",
        some "public.users"⟩,
       ⟨"public", "posts", "user_id", "uuid", "NULL", "FOREIGN KEY",
        some "public.orgs"⟩]) "public" "posts") ⟨"user_id", "uuid", true⟩
      "public" "posts" [] [⟨"user_id", some "public.orgs"⟩]
      ⟨"user_id", some "public.users"⟩ (by decide) rfl
      (by intro k hk; cases hk)).2.1).trans (by decide),
   ((claim10_theorem (getTable (analyze
      [⟨"public", "posts", "user_id", "uuid", "NULL", "FOREIGN KEY",
        some "public.users"⟩,
       ⟨"public", "posts", "user_id", "uuid", "NULL", "FOREIGN KEY",
        some "public.orgs"⟩]) "public" "posts") ⟨"user_id", "uuid", true⟩
      "public" "posts" [] [⟨"user_id", some "public.orgs"⟩]
      ⟨"user_id", some "public.users"⟩ (by decide) rfl
      (by intro k hk; cases hk)).2.2).trans (by decide)⟩

end SchemaAnalyzer
